import Mathlib

/-! Tic-tac-toe rules engine (`app.go`).

A shallow embedding of the Go rules engine and proofs about it.

Conventions of the embedding:

* a Go `string` is a Lean `String`; the only string operation the engine uses is equality;
* the Go array type `[9]string` is a vector of exactly nine strings;
* a Go `int` index is a Lean `Int`; reading or writing `board[i]` with `i` outside `[0, 9)` is a
  run-time panic in Go, modelled by the result `none`;
* a Go pointer `*GameState` is an `Option GameState` (`nil` is `none`); dereferencing `nil` is a
  run-time panic, modelled by the result `none`;
* a method with receiver `a *App` takes the engine before the call and returns the engine after
  the call next to its Go results.
-/

namespace TicTacToe

/-! ## Data model -/

/-- The Go type `[9]string`: a fixed-size array of nine strings, zero value nine empty strings. -/
abbrev BoardArray := Mathlib.Vector String 9

/-- The Go struct `GameState`. -/
structure GameState where
  Board : BoardArray
  CurrentPlayer : String
  Winner : String
  GameOver : Bool
  deriving DecidableEq

/-- A `context.Context` value; the engine only stores it. -/
structure Context where
  id : Nat
  deriving DecidableEq

/-- The Go struct `App`: the saved context and the pointer to the live game state. -/
structure App where
  ctx : Option Context
  gameState : Option GameState
  deriving DecidableEq

/-- The Go results of `MakeMove`, `(*GameState, error)`, next to the engine after the call.
An `error` is represented by its message (`err.Error()`); `nil` is `none`. -/
structure MoveResult where
  app : App
  state : Option GameState
  err : Option String
  deriving DecidableEq

/-! ## Array access -/

/-- The Go expression `board[i]` read: a panic (`none`) when `i` is outside `[0, 9)`. -/
def readCell (board : BoardArray) (i : Int) : Option String :=
  if h : 0 ≤ i ∧ i < 9 then some (board.get ⟨i.toNat, by omega⟩) else none

/-- The Go statement `board[i] = v`: a panic (`none`) when `i` is outside `[0, 9)`. -/
def writeCell (board : BoardArray) (i : Int) (v : String) : Option BoardArray :=
  if h : 0 ≤ i ∧ i < 9 then some (board.set ⟨i.toNat, by omega⟩ v) else none

/-! ## Operations -/

/-- The Go function `NewApp`: both fields are zero values. -/
def NewApp : App :=
  { ctx := none, gameState := none }

/-- The Go method `NewGame`: installs a fresh state and returns (a pointer to) it. -/
def NewGame (a : App) : App × GameState :=
  let gs : GameState :=
    { Board := Mathlib.Vector.replicate 9 "",
      CurrentPlayer := "X",
      Winner := "",
      GameOver := false }
  ({ a with gameState := some gs }, gs)

/-- The Go method `startup`: saves the context, then assigns the result of `NewGame`. -/
def startup (a : App) (ctx : Context) : App :=
  let a1 : App := { a with ctx := some ctx }
  let r := NewGame a1
  { r.1 with gameState := some r.2 }

/-- The Go method `GetInitialState`: returns the pointer held by the engine. -/
def GetInitialState (a : App) : App × Option GameState :=
  (a, a.gameState)

/-- The Go method `ResetGame`. -/
def ResetGame (a : App) : App × GameState :=
  NewGame a

/-- The Go condition `board[i] == player && board[j] == player && board[k] == player`,
with the short-circuit evaluation of `&&`. -/
def lineOf (board : BoardArray) (player : String) (i j k : Int) : Option Bool := do
  if (← readCell board i) != player then return false
  if (← readCell board j) != player then return false
  return (← readCell board k) == player

/-- The Go function `checkWin`; the two loops `for i := 0; i < 3; i++` run over `0, 1, 2`. -/
def checkWin (board : BoardArray) (player : String) : Option Bool := do
  -- Check rows
  for i in ([0, 1, 2] : List Int) do
    if (← lineOf board player (i * 3) (i * 3 + 1) (i * 3 + 2)) then
      return true
  -- Check columns
  for i in ([0, 1, 2] : List Int) do
    if (← lineOf board player i (i + 3) (i + 6)) then
      return true
  -- Check diagonals
  if (← lineOf board player 0 4 8) then
    return true
  if (← lineOf board player 2 4 6) then
    return true
  return false

/-- The Go function `checkDraw`: `for _, cell := range board`. -/
def checkDraw (board : BoardArray) : Bool := Id.run do
  for cell in board.toList do
    if cell == "" then
      return false
  return true

/-- The Go method `MakeMove`. The result `none` is a run-time panic. -/
def MakeMove (a : App) (index : Int) : Option MoveResult := do
  let gs ← a.gameState
  if gs.GameOver then
    return { app := a, state := none, err := some "game is over" }
  if index < 0 ∨ index ≥ 9 then
    return { app := a, state := none, err := some "invalid move index" }
  if (← readCell gs.Board index) != "" then
    return { app := a, state := none, err := some "cell already occupied" }
  let gs : GameState := { gs with Board := ← writeCell gs.Board index gs.CurrentPlayer }
  if (← checkWin gs.Board gs.CurrentPlayer) then
    let gs : GameState := { gs with Winner := gs.CurrentPlayer, GameOver := true }
    return { app := { a with gameState := some gs }, state := some gs, err := none }
  if checkDraw gs.Board then
    let gs : GameState := { gs with Winner := "draw", GameOver := true }
    return { app := { a with gameState := some gs }, state := some gs, err := none }
  let gs : GameState :=
    if gs.CurrentPlayer == "X" then { gs with CurrentPlayer := "O" }
    else { gs with CurrentPlayer := "X" }
  return { app := { a with gameState := some gs }, state := some gs, err := none }

/-! ## Vocabulary of the specification -/

/-- The eight winning triples of the specification: three rows, three columns, two diagonals. -/
def winningTriples : List (Fin 9 × Fin 9 × Fin 9) :=
  [(0, 1, 2), (3, 4, 5), (6, 7, 8), (0, 3, 6), (1, 4, 7), (2, 5, 8), (0, 4, 8), (2, 4, 6)]

/-- All three cells of the triple `t` hold `player`. -/
def holdsTriple (board : BoardArray) (player : String) (t : Fin 9 × Fin 9 × Fin 9) : Prop :=
  board.get t.1 = player ∧ board.get t.2.1 = player ∧ board.get t.2.2 = player

instance (board : BoardArray) (player : String) (t : Fin 9 × Fin 9 × Fin 9) :
    Decidable (holdsTriple board player t) := by
  unfold holdsTriple; infer_instance

/-- Some winning triple is held entirely by `player`. -/
def hasLine (board : BoardArray) (player : String) : Prop :=
  ∃ t ∈ winningTriples, holdsTriple board player t

instance (board : BoardArray) (player : String) : Decidable (hasLine board player) := by
  unfold hasLine; infer_instance

/-- No cell of the board is the empty string. -/
def boardFull (board : BoardArray) : Prop :=
  ∀ j : Fin 9, board.get j ≠ ""

instance (board : BoardArray) : Decidable (boardFull board) := by
  unfold boardFull; infer_instance

/-- A board given by its nine cells in row-major order. -/
def mkBoard (c0 c1 c2 c3 c4 c5 c6 c7 c8 : String) : BoardArray :=
  ⟨[c0, c1, c2, c3, c4, c5, c6, c7, c8], rfl⟩

/-- The engine holding the state `gs`, with no saved context. -/
def engineOf (gs : GameState) : App :=
  { ctx := none, gameState := some gs }

/-- The test statement `app.gameState.CurrentPlayer = player`; a panic when the pointer is nil. -/
def setCurrentPlayer (a : App) (player : String) : Option App := do
  let gs ← a.gameState
  return { a with gameState := some { gs with CurrentPlayer := player } }

/-- The loop of `TestDrawCondition`: before each call the mover is assigned, then `MakeMove` is
called on the engine the previous call left. Returns the results of the calls, in order. -/
def playAs : App → List (String × Int) → Option (List MoveResult)
  | _, [] => some []
  | a, (player, index) :: rest => do
    let a1 ← setCurrentPlayer a player
    let r ← MakeMove a1 index
    let rs ← playAs r.app rest
    return r :: rs

/-- Successive `MakeMove` calls, each on the engine the previous call left. Returns the results of
the calls, in order. -/
def playMoves : App → List Int → Option (List MoveResult)
  | _, [] => some []
  | a, index :: rest => do
    let r ← MakeMove a index
    let rs ← playMoves r.app rest
    return r :: rs

/-! ## Concrete states used as examples -/

/-- The state `NewGame` installs: nine empty cells, X to move. -/
def freshState : GameState :=
  { Board := mkBoard "" "" "" "" "" "" "" "" "", CurrentPlayer := "X", Winner := "",
    GameOver := false }

/-- The state after X opened at cell 0 of a new game. -/
def afterX0 : GameState :=
  { Board := mkBoard "X" "" "" "" "" "" "" "" "", CurrentPlayer := "O", Winner := "",
    GameOver := false }

/-- The state of `TestDrawCondition` before its last move: cell 8 is empty, O to move. -/
def beforeDraw : GameState :=
  { Board := mkBoard "X" "O" "X" "X" "O" "X" "O" "X" "", CurrentPlayer := "O", Winner := "",
    GameOver := false }

/-- The state of `TestDrawCondition` after its last move. -/
def drawnState : GameState :=
  { Board := mkBoard "X" "O" "X" "X" "O" "X" "O" "X" "O", CurrentPlayer := "O",
    Winner := "draw", GameOver := true }

/-- A state in which O holds cells 2 and 4 of the diagonal 2-4-6 and cell 6 is empty. -/
def beforeDiagonal : GameState :=
  { Board := mkBoard "X" "X" "O" "X" "O" "" "" "" "X", CurrentPlayer := "O", Winner := "",
    GameOver := false }

/-- The moves of `TestDrawCondition`, each with the mover the test assigns before the call. -/
def drawMoves : List (String × Int) :=
  [("X", 0), ("O", 1), ("X", 2), ("X", 3), ("O", 4), ("X", 5), ("O", 6), ("X", 7), ("O", 8)]

/-- The result of a call of `MakeMove` that returned the state `gs` and no error, on an engine
without saved context. -/
def moved (gs : GameState) : MoveResult :=
  { app := engineOf gs, state := some gs, err := none }

/-! ## Reachable engines and counting -/

/-- The engines reachable from `NewGame()` by a sequence of `MakeMove` calls, successful or
failing. -/
inductive Reachable : App → Prop
  | newGame (a : App) : Reachable (NewGame a).1
  | makeMove (a : App) (index : Int) (r : MoveResult) :
      Reachable a → MakeMove a index = some r → Reachable r.app

/-- The number of cells of the board that hold `mark`. -/
def marks (board : BoardArray) (mark : String) : Nat :=
  board.toList.count mark

/-- The number of non-empty cells of the board. -/
def occupied (board : BoardArray) : Nat :=
  board.toList.countP fun c => c != ""

/-- The number of calls among `rs` that returned no error. -/
def successes (rs : List MoveResult) : Nat :=
  rs.countP fun q => q.err.isNone

/-- The index expressions of `checkWin`, in the order of the source: `i*3`, `i*3+1`, `i*3+2` and
`i`, `i+3`, `i+6` for `i` in `0, 1, 2`, then the two diagonals. -/
def checkWinIndices : List Int :=
  (([0, 1, 2] : List Int).map fun i => [i * 3, i * 3 + 1, i * 3 + 2]).flatten ++
    (([0, 1, 2] : List Int).map fun i => [i, i + 3, i + 6]).flatten ++ [0, 4, 8] ++ [2, 4, 6]

/-- What holds of the state of every reachable engine: the marks are "", "X" or "O", the mover
is "X" or "O", X has as many marks as O or one more, every non-empty cell is an X or an O, and
the recorded outcome agrees with the board. -/
def Consistent (s : GameState) : Prop :=
  (∀ j : Fin 9, s.Board.get j = "" ∨ s.Board.get j = "X" ∨ s.Board.get j = "O") ∧
  (s.CurrentPlayer = "X" ∨ s.CurrentPlayer = "O") ∧
  (marks s.Board "X" = marks s.Board "O" ∨ marks s.Board "X" = marks s.Board "O" + 1) ∧
  occupied s.Board = marks s.Board "X" + marks s.Board "O" ∧
  (s.GameOver = false →
    s.Winner = "" ∧ ¬ hasLine s.Board "X" ∧ ¬ hasLine s.Board "O" ∧ ¬ boardFull s.Board ∧
    (s.CurrentPlayer = "X" ↔ marks s.Board "X" = marks s.Board "O")) ∧
  (s.GameOver = true →
    (s.Winner = "X" ∧ hasLine s.Board "X" ∧ ¬ hasLine s.Board "O") ∨
    (s.Winner = "O" ∧ hasLine s.Board "O" ∧ ¬ hasLine s.Board "X") ∨
    (s.Winner = "draw" ∧ boardFull s.Board ∧ ¬ hasLine s.Board "X" ∧ ¬ hasLine s.Board "O"))

/-- The nine alternating moves 0, 1, 2, 4, 3, 5, 7, 6, 8. -/
def nineMoves : List Int :=
  [0, 1, 2, 4, 3, 5, 7, 6, 8]

/-- The state the nine moves of `nineMoves` end in. -/
def nineMovesState : GameState :=
  { Board := mkBoard "X" "O" "X" "X" "O" "O" "O" "X" "X", CurrentPlayer := "X",
    Winner := "draw", GameOver := true }

/-! ## Basic lemmas -/

theorem readCell_fin (board : BoardArray) (i : Fin 9) :
    readCell board (i.val : Int) = some (board.get i) := by
  have h : (0 : Int) ≤ (i.val : Int) ∧ (i.val : Int) < 9 := by
    constructor <;> omega
  simp [readCell, h]

theorem writeCell_fin (board : BoardArray) (i : Fin 9) (v : String) :
    writeCell board (i.val : Int) v = some (board.set i v) := by
  have h : (0 : Int) ≤ (i.val : Int) ∧ (i.val : Int) < 9 := by
    constructor <;> omega
  simp [writeCell, h]

theorem lineOf_fin (board : BoardArray) (player : String) (i j k : Fin 9) :
    lineOf board player (i.val : Int) (j.val : Int) (k.val : Int)
      = some (decide (board.get i = player ∧ board.get j = player ∧ board.get k = player)) := by
  simp only [lineOf, readCell_fin]
  by_cases h1 : board.get i = player <;> by_cases h2 : board.get j = player <;>
    by_cases h3 : board.get k = player <;> simp [h1, h2, h3]

theorem checkWin_eq (board : BoardArray) (player : String) :
    checkWin board player = some (decide (hasLine board player)) := by
  have r0 : lineOf board player 0 1 2 = _ := lineOf_fin board player 0 1 2
  have r1 : lineOf board player 3 4 5 = _ := lineOf_fin board player 3 4 5
  have r2 : lineOf board player 6 7 8 = _ := lineOf_fin board player 6 7 8
  have c0 : lineOf board player 0 3 6 = _ := lineOf_fin board player 0 3 6
  have c1 : lineOf board player 1 4 7 = _ := lineOf_fin board player 1 4 7
  have c2 : lineOf board player 2 5 8 = _ := lineOf_fin board player 2 5 8
  have d0 : lineOf board player 0 4 8 = _ := lineOf_fin board player 0 4 8
  have d1 : lineOf board player 2 4 6 = _ := lineOf_fin board player 2 4 6
  simp only [checkWin, List.forIn_cons, List.forIn_nil, Int.reduceMul, Int.reduceAdd, zero_mul, one_mul, zero_add,
    r0, r1, r2, c0, c1, c2, d0, d1, hasLine, winningTriples, holdsTriple, List.mem_cons, List.mem_singleton,
    exists_eq_or_imp, exists_eq_left, List.not_mem_nil, false_and, exists_false, or_false, Bool.decide_or]
  generalize decide (board.get 0 = player ∧ board.get 1 = player ∧ board.get 2 = player) = b0
  generalize decide (board.get 3 = player ∧ board.get 4 = player ∧ board.get 5 = player) = b1
  generalize decide (board.get 6 = player ∧ board.get 7 = player ∧ board.get 8 = player) = b2
  generalize decide (board.get 0 = player ∧ board.get 3 = player ∧ board.get 6 = player) = b3
  generalize decide (board.get 1 = player ∧ board.get 4 = player ∧ board.get 7 = player) = b4
  generalize decide (board.get 2 = player ∧ board.get 5 = player ∧ board.get 8 = player) = b5
  generalize decide (board.get 0 = player ∧ board.get 4 = player ∧ board.get 8 = player) = b6
  generalize decide (board.get 2 = player ∧ board.get 4 = player ∧ board.get 6 = player) = b7
  cases b0 <;> cases b1 <;> cases b2 <;> cases b3 <;> cases b4 <;> cases b5 <;> cases b6 <;>
    cases b7 <;> rfl

theorem checkDraw_eq (board : BoardArray) :
    checkDraw board = decide (boardFull board) := by
  obtain ⟨l, hl⟩ := board
  match l, hl with
  | [c0, c1, c2, c3, c4, c5, c6, c7, c8], _ =>
    simp only [checkDraw, boardFull, Fin.forall_fin_succ, Mathlib.Vector.toList, Mathlib.Vector.get]
    by_cases h0 : c0 = ""
    · simp [h0, Id.run]
    by_cases h1 : c1 = ""
    · simp [h0, h1, Id.run]
    by_cases h2 : c2 = ""
    · simp [h0, h1, h2, Id.run]
    by_cases h3 : c3 = ""
    · simp [h0, h1, h2, h3, Id.run]
    by_cases h4 : c4 = ""
    · simp [h0, h1, h2, h3, h4, Id.run]
    by_cases h5 : c5 = ""
    · simp [h0, h1, h2, h3, h4, h5, Id.run]
    by_cases h6 : c6 = ""
    · simp [h0, h1, h2, h3, h4, h5, h6, Id.run]
    by_cases h7 : c7 = ""
    · simp [h0, h1, h2, h3, h4, h5, h6, h7, Id.run]
    by_cases h8 : c8 = ""
    · simp [h0, h1, h2, h3, h4, h5, h6, h7, h8, Id.run]
    simp [h0, h1, h2, h3, h4, h5, h6, h7, h8, Id.run]

theorem int_eq_fin (index : Int) (h0 : 0 ≤ index) (h8 : index ≤ 8) :
    ∃ i : Fin 9, index = (i.val : Int) :=
  ⟨⟨index.toNat, by omega⟩, by simp [Int.toNat_of_nonneg h0]⟩

theorem readCell_some (board : BoardArray) (index : Int) (c : String)
    (h : readCell board index = some c) : ∃ i : Fin 9, index = (i.val : Int) ∧ board.get i = c := by
  unfold readCell at h
  split at h
  · rename_i hr
    refine ⟨⟨index.toNat, by omega⟩, by simp [Int.toNat_of_nonneg hr.1], ?_⟩
    simpa using h
  · simp at h

theorem step_gameOver (a : App) (gs : GameState) (index : Int)
    (ha : a.gameState = some gs) (hg : gs.GameOver = true) :
    MakeMove a index = some { app := a, state := none, err := some "game is over" } := by
  simp [MakeMove, ha, hg]

theorem step_invalid (a : App) (gs : GameState) (index : Int)
    (ha : a.gameState = some gs) (hg : gs.GameOver = false) (hi : index < 0 ∨ 8 < index) :
    MakeMove a index = some { app := a, state := none, err := some "invalid move index" } := by
  have hi2 : index < 0 ∨ 9 ≤ index := by omega
  simp [MakeMove, ha, hg, hi2]

theorem step_occupied (a : App) (gs : GameState) (i : Fin 9)
    (ha : a.gameState = some gs) (hg : gs.GameOver = false) (hc : gs.Board.get i ≠ "") :
    MakeMove a (i.val : Int)
      = some { app := a, state := none, err := some "cell already occupied" } := by
  have hi : ¬ ((i.val : Int) < 0 ∨ 9 ≤ (i.val : Int)) := by omega
  simp [MakeMove, ha, hg, hi, readCell_fin, hc]

theorem step_win (a : App) (gs : GameState) (i : Fin 9)
    (ha : a.gameState = some gs) (hg : gs.GameOver = false) (hc : gs.Board.get i = "")
    (hw : hasLine (gs.Board.set i gs.CurrentPlayer) gs.CurrentPlayer) :
    MakeMove a (i.val : Int)
      = some { app := { a with gameState := some (
                  { Board := gs.Board.set i gs.CurrentPlayer, CurrentPlayer := gs.CurrentPlayer,
                    Winner := gs.CurrentPlayer, GameOver := true }) },
               state := some
                  { Board := gs.Board.set i gs.CurrentPlayer, CurrentPlayer := gs.CurrentPlayer,
                    Winner := gs.CurrentPlayer, GameOver := true },
               err := none } := by
  have hi : ¬ ((i.val : Int) < 0 ∨ 9 ≤ (i.val : Int)) := by omega
  simp [MakeMove, ha, hg, hi, readCell_fin, writeCell_fin, hc, checkWin_eq, hw]

theorem step_draw (a : App) (gs : GameState) (i : Fin 9)
    (ha : a.gameState = some gs) (hg : gs.GameOver = false) (hc : gs.Board.get i = "")
    (hw : ¬ hasLine (gs.Board.set i gs.CurrentPlayer) gs.CurrentPlayer)
    (hf : boardFull (gs.Board.set i gs.CurrentPlayer)) :
    MakeMove a (i.val : Int)
      = some { app := { a with gameState := some (
                  { Board := gs.Board.set i gs.CurrentPlayer, CurrentPlayer := gs.CurrentPlayer,
                    Winner := "draw", GameOver := true }) },
               state := some
                  { Board := gs.Board.set i gs.CurrentPlayer, CurrentPlayer := gs.CurrentPlayer,
                    Winner := "draw", GameOver := true },
               err := none } := by
  have hi : ¬ ((i.val : Int) < 0 ∨ 9 ≤ (i.val : Int)) := by omega
  simp [MakeMove, ha, hg, hi, readCell_fin, writeCell_fin, hc, checkWin_eq, hw, checkDraw_eq, hf]

theorem step_next (a : App) (gs : GameState) (i : Fin 9)
    (ha : a.gameState = some gs) (hg : gs.GameOver = false) (hc : gs.Board.get i = "")
    (hw : ¬ hasLine (gs.Board.set i gs.CurrentPlayer) gs.CurrentPlayer)
    (hf : ¬ boardFull (gs.Board.set i gs.CurrentPlayer)) :
    MakeMove a (i.val : Int)
      = some { app := { a with gameState := some (
                  { Board := gs.Board.set i gs.CurrentPlayer,
                    CurrentPlayer := if gs.CurrentPlayer = "X" then "O" else "X",
                    Winner := gs.Winner, GameOver := false }) },
               state := some
                  { Board := gs.Board.set i gs.CurrentPlayer,
                    CurrentPlayer := if gs.CurrentPlayer = "X" then "O" else "X",
                    Winner := gs.Winner, GameOver := false },
               err := none } := by
  have hi : ¬ ((i.val : Int) < 0 ∨ 9 ≤ (i.val : Int)) := by omega
  simp [MakeMove, ha, hg, hi, readCell_fin, writeCell_fin, hc, checkWin_eq, hw, checkDraw_eq, hf]
  by_cases hx : gs.CurrentPlayer = "X" <;> simp [hx]


theorem readCell_set_ne (board : BoardArray) (i : Fin 9) (v : String) (j : Int)
    (h : j ≠ (i.val : Int)) : readCell (board.set i v) j = readCell board j := by
  unfold readCell
  split
  · rename_i hr
    have hne : i ≠ (⟨j.toNat, by omega⟩ : Fin 9) := by
      intro hij
      apply h
      have : i.val = j.toNat := by rw [hij]
      omega
    simp [Mathlib.Vector.get_set_of_ne hne]
  · rfl

/-- What a call of `MakeMove` that returned without error did: the index is a cell of the board,
the cell was empty, and the call took one of the three outcome branches. -/
theorem step_success_cases (a : App) (s : GameState) (index : Int) (r : MoveResult)
    (ha : a.gameState = some s) (hg : s.GameOver = false)
    (hm : MakeMove a index = some r) (hs : r.err = none) :
    ∃ i : Fin 9, index = (i.val : Int) ∧ s.Board.get i = "" ∧
      ∃ s1 : GameState,
        r = { app := { a with gameState := some s1 }, state := some s1, err := none } ∧
        s1.Board = s.Board.set i s.CurrentPlayer ∧
        ((hasLine s1.Board s.CurrentPlayer ∧ s1.CurrentPlayer = s.CurrentPlayer ∧
            s1.Winner = s.CurrentPlayer ∧ s1.GameOver = true) ∨
         (¬ hasLine s1.Board s.CurrentPlayer ∧ boardFull s1.Board ∧
            s1.CurrentPlayer = s.CurrentPlayer ∧ s1.Winner = "draw" ∧ s1.GameOver = true) ∨
         (¬ hasLine s1.Board s.CurrentPlayer ∧ ¬ boardFull s1.Board ∧
            s1.CurrentPlayer = (if s.CurrentPlayer = "X" then "O" else "X") ∧
            s1.Winner = s.Winner ∧ s1.GameOver = false)) := by
  by_cases hr : index < 0 ∨ 8 < index
  · rw [step_invalid a s index ha hg hr] at hm
    cases hm
    simp at hs
  · obtain ⟨i, rfl⟩ := int_eq_fin index (by omega) (by omega)
    by_cases hc : s.Board.get i = ""
    · refine ⟨i, rfl, hc, ?_⟩
      by_cases hw : hasLine (s.Board.set i s.CurrentPlayer) s.CurrentPlayer
      · rw [step_win a s i ha hg hc hw] at hm
        cases hm
        exact ⟨_, rfl, rfl, Or.inl ⟨hw, rfl, rfl, rfl⟩⟩
      · by_cases hf : boardFull (s.Board.set i s.CurrentPlayer)
        · rw [step_draw a s i ha hg hc hw hf] at hm
          cases hm
          exact ⟨_, rfl, rfl, Or.inr (Or.inl ⟨hw, hf, rfl, rfl, rfl⟩)⟩
        · rw [step_next a s i ha hg hc hw hf] at hm
          cases hm
          exact ⟨_, rfl, rfl, Or.inr (Or.inr ⟨hw, hf, rfl, rfl, rfl⟩)⟩
    · rw [step_occupied a s i ha hg hc] at hm
      cases hm
      simp at hs

/-- A move on an empty cell of a game in progress returns without error, and the board it leaves
is the board before with the mover written at the cell. -/
theorem step_empty_cell (a : App) (s : GameState) (i : Fin 9)
    (ha : a.gameState = some s) (hg : s.GameOver = false) (hc : s.Board.get i = "") :
    ∃ s1 : GameState,
      MakeMove a (i.val : Int)
        = some { app := { a with gameState := some s1 }, state := some s1, err := none } ∧
      s1.Board = s.Board.set i s.CurrentPlayer := by
  by_cases hw : hasLine (s.Board.set i s.CurrentPlayer) s.CurrentPlayer
  · exact ⟨_, step_win a s i ha hg hc hw, rfl⟩
  · by_cases hf : boardFull (s.Board.set i s.CurrentPlayer)
    · exact ⟨_, step_draw a s i ha hg hc hw hf, rfl⟩
    · exact ⟨_, step_next a s i ha hg hc hw hf, rfl⟩

/-! ## Counting lemmas -/

theorem get_eq_getElem (board : BoardArray) (i : Fin 9) (h : i.val < board.toList.length) :
    board.toList[i.val] = board.get i := by
  rw [Mathlib.Vector.get_eq_get]
  rfl

theorem marks_set_same (board : BoardArray) (i : Fin 9) (p : String) (hp : p ≠ "")
    (he : board.get i = "") : marks (board.set i p) p = marks board p + 1 := by
  have hl : i.val < board.toList.length := by rw [Mathlib.Vector.toList_length]; exact i.isLt
  have h1 : ¬ ((board.toList[i.val] == p) = true) := by
    rw [get_eq_getElem board i hl, he]
    simpa using Ne.symm hp
  simp only [marks, Mathlib.Vector.toList_set, List.count_set _ _ _ _ hl, if_neg h1, beq_self_eq_true,
    if_true]
  omega

theorem marks_set_other (board : BoardArray) (i : Fin 9) (p q : String) (hq : q ≠ "")
    (hpq : p ≠ q) (he : board.get i = "") : marks (board.set i p) q = marks board q := by
  have hl : i.val < board.toList.length := by rw [Mathlib.Vector.toList_length]; exact i.isLt
  have h1 : ¬ ((board.toList[i.val] == q) = true) := by
    rw [get_eq_getElem board i hl, he]
    simpa using Ne.symm hq
  have h2 : ¬ ((p == q) = true) := by simpa using hpq
  simp only [marks, Mathlib.Vector.toList_set, List.count_set _ _ _ _ hl, if_neg h1, if_neg h2]
  omega

theorem occupied_set (board : BoardArray) (i : Fin 9) (p : String) (hp : p ≠ "")
    (he : board.get i = "") : occupied (board.set i p) = occupied board + 1 := by
  have hl : i.val < board.toList.length := by rw [Mathlib.Vector.toList_length]; exact i.isLt
  have h1 : ¬ ((board.toList[i.val] != "") = true) := by
    rw [get_eq_getElem board i hl, he]
    simp
  have h2 : (p != "") = true := by simpa using hp
  simp only [occupied, Mathlib.Vector.toList_set, List.countP_set _ _ _ _ hl, if_neg h1, if_pos h2]
  omega

theorem occupied_le (board : BoardArray) : occupied board ≤ 9 := by
  have h := List.countP_le_length (fun c : String => c != "") (l := board.toList)
  rw [Mathlib.Vector.toList_length] at h
  exact h

theorem hasLine_set_other (board : BoardArray) (i : Fin 9) (p q : String) (hpq : p ≠ q)
    (h : hasLine (board.set i p) q) : hasLine board q := by
  obtain ⟨t, ht, h1, h2, h3⟩ := h
  have cell : ∀ j : Fin 9, (board.set i p).get j = q → board.get j = q := by
    intro j hj
    by_cases hji : i = j
    · rw [hji, Mathlib.Vector.get_set_same] at hj
      exact absurd hj hpq
    · rwa [Mathlib.Vector.get_set_of_ne hji] at hj
  exact ⟨t, ht, cell _ h1, cell _ h2, cell _ h3⟩

theorem not_boardFull_of_empty (board : BoardArray) (i : Fin 9) (he : board.get i = "") :
    ¬ boardFull board :=
  fun hf => hf i he

/-! ## The transition of `MakeMove` -/

theorem step_state (a : App) (index : Int) (r : MoveResult) (hm : MakeMove a index = some r) :
    ∃ s : GameState, a.gameState = some s := by
  cases h : a.gameState with
  | none => simp [MakeMove, h] at hm
  | some s => exact ⟨s, rfl⟩

theorem step_total (a : App) (s : GameState) (index : Int) (ha : a.gameState = some s) :
    ∃ r : MoveResult, MakeMove a index = some r := by
  by_cases hg : s.GameOver = true
  · exact ⟨_, step_gameOver a s index ha hg⟩
  · have hg2 : s.GameOver = false := by simpa using hg
    by_cases hr : index < 0 ∨ 8 < index
    · exact ⟨_, step_invalid a s index ha hg2 hr⟩
    · obtain ⟨i, rfl⟩ := int_eq_fin index (by omega) (by omega)
      by_cases hc : s.Board.get i = ""
      · obtain ⟨s1, h1, _⟩ := step_empty_cell a s i ha hg2 hc
        exact ⟨_, h1⟩
      · exact ⟨_, step_occupied a s i ha hg2 hc⟩

/-- A call of `MakeMove` that returned an error left the engine as it was and returned no
state. -/
theorem step_failure (a : App) (s : GameState) (index : Int) (r : MoveResult)
    (ha : a.gameState = some s) (hm : MakeMove a index = some r) (hs : r.err ≠ none) :
    r.app = a ∧ r.state = none := by
  by_cases hg : s.GameOver = true
  · rw [step_gameOver a s index ha hg] at hm
    cases hm
    exact ⟨rfl, rfl⟩
  · have hg2 : s.GameOver = false := by simpa using hg
    by_cases hr : index < 0 ∨ 8 < index
    · rw [step_invalid a s index ha hg2 hr] at hm
      cases hm
      exact ⟨rfl, rfl⟩
    · obtain ⟨i, rfl⟩ := int_eq_fin index (by omega) (by omega)
      by_cases hc : s.Board.get i = ""
      · obtain ⟨s1, h1, _⟩ := step_empty_cell a s i ha hg2 hc
        rw [h1] at hm
        cases hm
        exact absurd rfl hs
      · rw [step_occupied a s i ha hg2 hc] at hm
        cases hm
        exact ⟨rfl, rfl⟩

/-- A call of `MakeMove` that returned no error started from a game in progress. -/
theorem step_success_inProgress (a : App) (s : GameState) (index : Int) (r : MoveResult)
    (ha : a.gameState = some s) (hm : MakeMove a index = some r) (hs : r.err = none) :
    s.GameOver = false := by
  by_cases hg : s.GameOver = true
  · rw [step_gameOver a s index ha hg] at hm
    cases hm
    simp at hs
  · simpa using hg

theorem consistent_fresh (a : App) : Consistent (NewGame a).2 := by
  show Consistent freshState
  refine ⟨by decide, Or.inl rfl, Or.inl (by decide), by decide, ?_, ?_⟩
  · intro _
    exact ⟨rfl, by decide, by decide, by decide, by decide⟩
  · intro h
    exact absurd h (by decide)

/-- A successful move keeps the state consistent and fills exactly one more cell. -/
theorem consistent_success (a : App) (s : GameState) (index : Int) (r : MoveResult)
    (ha : a.gameState = some s) (hc : Consistent s)
    (hm : MakeMove a index = some r) (hs : r.err = none) :
    ∃ s1 : GameState, r.app.gameState = some s1 ∧ r.state = some s1 ∧ Consistent s1 ∧
      occupied s1.Board = occupied s.Board + 1 := by
  have hg := step_success_inProgress a s index r ha hm hs
  obtain ⟨i, _, he, s1, hr, hb, hcase⟩ := step_success_cases a s index r ha hg hm hs
  obtain ⟨halpha, hcp, hcnt, hocc, hprog, _⟩ := hc
  obtain ⟨hw0, hnX, hnO, _, hturn⟩ := hprog hg
  have hXO : ("X" : String) ≠ "O" := by decide
  have hXe : ("X" : String) ≠ "" := by decide
  have hOe : ("O" : String) ≠ "" := by decide
  have hpe : s.CurrentPlayer ≠ "" := by
    rcases hcp with h | h <;> rw [h] <;> decide
  have halpha1 : ∀ j : Fin 9, s1.Board.get j = "" ∨ s1.Board.get j = "X" ∨ s1.Board.get j = "O" := by
    intro j
    rw [hb]
    by_cases hji : i = j
    · rw [hji, Mathlib.Vector.get_set_same]
      exact Or.inr hcp
    · rw [Mathlib.Vector.get_set_of_ne hji]
      exact halpha j
  have hocc1 : occupied s1.Board = occupied s.Board + 1 := by
    rw [hb]; exact occupied_set _ _ _ hpe he
  refine ⟨s1, by rw [hr], by rw [hr], ?_, hocc1⟩
  rcases hcp with hx | ho
  · -- X moved
    have hmX : marks s1.Board "X" = marks s.Board "X" + 1 := by
      rw [hb, hx]; exact marks_set_same _ _ _ hXe he
    have hmO : marks s1.Board "O" = marks s.Board "O" := by
      rw [hb, hx]; exact marks_set_other _ _ _ _ hOe hXO he
    have heq : marks s.Board "X" = marks s.Board "O" := hturn.mp hx
    have hnO1 : ¬ hasLine s1.Board "O" := by
      rw [hb, hx]; exact fun h => hnO (hasLine_set_other _ _ _ _ hXO h)
    rw [hx] at hcase
    rcases hcase with ⟨hl, h1, h2, h3⟩ | ⟨hl, hf, h1, h2, h3⟩ | ⟨hl, hf, h1, h2, h3⟩
    · refine ⟨halpha1, Or.inl h1, Or.inr (by omega), by omega, ?_, ?_⟩
      · intro h; rw [h3] at h; exact absurd h (by decide)
      · intro _; exact Or.inl ⟨h2, hl, hnO1⟩
    · refine ⟨halpha1, Or.inl h1, Or.inr (by omega), by omega, ?_, ?_⟩
      · intro h; rw [h3] at h; exact absurd h (by decide)
      · intro _; exact Or.inr (Or.inr ⟨h2, hf, hl, hnO1⟩)
    · rw [if_pos rfl] at h1
      refine ⟨halpha1, Or.inr h1, Or.inr (by omega), by omega, ?_, ?_⟩
      · intro _
        refine ⟨by rw [h2, hw0], hl, hnO1, hf, ?_⟩
        constructor
        · intro h; rw [h1] at h; exact absurd h.symm hXO
        · intro h; omega
      · intro h; rw [h3] at h; exact absurd h (by decide)
  · -- O moved
    have hnx : s.CurrentPlayer ≠ "X" := by rw [ho]; exact Ne.symm hXO
    have hmO : marks s1.Board "O" = marks s.Board "O" + 1 := by
      rw [hb, ho]; exact marks_set_same _ _ _ hOe he
    have hmX : marks s1.Board "X" = marks s.Board "X" := by
      rw [hb, ho]; exact marks_set_other _ _ _ _ hXe (Ne.symm hXO) he
    have hne : marks s.Board "X" ≠ marks s.Board "O" := fun h => hnx (hturn.mpr h)
    have hnX1 : ¬ hasLine s1.Board "X" := by
      rw [hb, ho]; exact fun h => hnX (hasLine_set_other _ _ _ _ (Ne.symm hXO) h)
    rw [ho] at hcase
    rcases hcase with ⟨hl, h1, h2, h3⟩ | ⟨hl, hf, h1, h2, h3⟩ | ⟨hl, hf, h1, h2, h3⟩
    · refine ⟨halpha1, Or.inr h1, Or.inl (by omega), by omega, ?_, ?_⟩
      · intro h; rw [h3] at h; exact absurd h (by decide)
      · intro _; exact Or.inr (Or.inl ⟨h2, hl, hnX1⟩)
    · refine ⟨halpha1, Or.inr h1, Or.inl (by omega), by omega, ?_, ?_⟩
      · intro h; rw [h3] at h; exact absurd h (by decide)
      · intro _; exact Or.inr (Or.inr ⟨h2, hf, hnX1, hl⟩)
    · rw [if_neg (Ne.symm hXO)] at h1
      refine ⟨halpha1, Or.inl h1, Or.inl (by omega), by omega, ?_, ?_⟩
      · intro _
        exact ⟨by rw [h2, hw0], hnX1, hl, hf, fun _ => by omega, fun _ => h1⟩
      · intro h; rw [h3] at h; exact absurd h (by decide)

/-- Every call of `MakeMove` on a consistent state leaves a consistent state. -/
theorem consistent_step (a : App) (s : GameState) (index : Int) (r : MoveResult)
    (ha : a.gameState = some s) (hc : Consistent s) (hm : MakeMove a index = some r) :
    ∃ s1 : GameState, r.app.gameState = some s1 ∧ Consistent s1 := by
  by_cases hs : r.err = none
  · obtain ⟨s1, h1, _, h2, _⟩ := consistent_success a s index r ha hc hm hs
    exact ⟨s1, h1, h2⟩
  · obtain ⟨h1, _⟩ := step_failure a s index r ha hm hs
    exact ⟨s, by rw [h1, ha], hc⟩

/-- The state of every reachable engine is present and consistent. -/
theorem reachable_consistent (a : App) (h : Reachable a) :
    ∃ s : GameState, a.gameState = some s ∧ Consistent s := by
  induction h with
  | newGame a0 => exact ⟨(NewGame a0).2, rfl, consistent_fresh a0⟩
  | makeMove a0 index r _ hm ih =>
    obtain ⟨s, hs, hc⟩ := ih
    exact consistent_step a0 s index r hs hc hm

/-! ## The claims -/

/-- C1: in a state with `GameOver = false`, for an index `i` with `0 ≤ i ≤ 8` whose cell is
empty, `MakeMove(i)` returns no error, the engine state it leaves (which is also the state it
returns) has the mover of the state before at cell `i`, and every other cell reads as before. -/
theorem MakeMove_places_mark (a : App) (s : GameState) (i : Int)
    (ha : a.gameState = some s) (hg : s.GameOver = false) (h0 : 0 ≤ i) (h8 : i ≤ 8)
    (he : readCell s.Board i = some "") :
    ∃ s1 : GameState,
      MakeMove a i
        = some { app := { a with gameState := some s1 }, state := some s1, err := none } ∧
      readCell s1.Board i = some s.CurrentPlayer ∧
      ∀ j : Int, j ≠ i → readCell s1.Board j = readCell s.Board j := by
  obtain ⟨k, rfl, hk⟩ := readCell_some s.Board i "" he
  obtain ⟨s1, hm, hb⟩ := step_empty_cell a s k ha hg hk
  refine ⟨s1, hm, ?_, ?_⟩
  · rw [hb, readCell_fin, Mathlib.Vector.get_set_same]
  · intro j hj
    rw [hb, readCell_set_ne _ _ _ _ hj]

/-- Witness of C1: O moves to the centre of a board holding one X. -/
theorem MakeMove_places_mark_witness :
    readCell afterX0.Board 4 = some "" ∧
    ∃ s1 : GameState,
      MakeMove (engineOf afterX0) 4
        = some { app := { engineOf afterX0 with gameState := some s1 }, state := some s1,
                 err := none } ∧
      readCell s1.Board 4 = some afterX0.CurrentPlayer ∧
      ∀ j : Int, j ≠ 4 → readCell s1.Board j = readCell afterX0.Board j :=
  ⟨by decide,
    MakeMove_places_mark (engineOf afterX0) afterX0 4 rfl rfl (by decide) (by decide)
      (by decide)⟩

/-- C2: for each of the eight winning triples `t` and each player `p` among "X" and "O", in a
state with `GameOver = false` and `CurrentPlayer = p` where the cell `i` of `t` is empty and the
two other cells of `t` hold `p`, `MakeMove(i)` returns no error and leaves `GameOver = true`,
`Winner = p` and `CurrentPlayer = p`, whatever the other six cells hold. -/
theorem MakeMove_completes_triple (a : App) (s : GameState) (p : String)
    (t : Fin 9 × Fin 9 × Fin 9) (i : Fin 9)
    (ht : t ∈ winningTriples) (hp : p = "X" ∨ p = "O")
    (ha : a.gameState = some s) (hg : s.GameOver = false) (hcp : s.CurrentPlayer = p)
    (_hi : i = t.1 ∨ i = t.2.1 ∨ i = t.2.2) (he : s.Board.get i = "")
    (h1 : t.1 ≠ i → s.Board.get t.1 = p) (h2 : t.2.1 ≠ i → s.Board.get t.2.1 = p)
    (h3 : t.2.2 ≠ i → s.Board.get t.2.2 = p) :
    ∃ s1 : GameState,
      MakeMove a (i.val : Int)
        = some { app := { a with gameState := some s1 }, state := some s1, err := none } ∧
      s1.GameOver = true ∧ s1.Winner = p ∧ s1.CurrentPlayer = p := by
  subst hcp
  have cell : ∀ j : Fin 9, (j ≠ i → s.Board.get j = s.CurrentPlayer) →
      (s.Board.set i s.CurrentPlayer).get j = s.CurrentPlayer := by
    intro j hj
    by_cases hji : j = i
    · rw [hji, Mathlib.Vector.get_set_same]
    · rw [Mathlib.Vector.get_set_of_ne (Ne.symm hji), hj hji]
  have hw : hasLine (s.Board.set i s.CurrentPlayer) s.CurrentPlayer :=
    ⟨t, ht, cell _ h1, cell _ h2, cell _ h3⟩
  exact ⟨_, step_win a s i ha hg he hw, rfl, rfl, rfl⟩

/-- Witness of C2: O holds cells 2 and 4 of the diagonal 2-4-6 and moves to cell 6. -/
theorem MakeMove_completes_triple_witness :
    ((2, 4, 6) : Fin 9 × Fin 9 × Fin 9) ∈ winningTriples ∧
    beforeDiagonal.Board.get 6 = "" ∧ beforeDiagonal.Board.get 2 = "O" ∧
    beforeDiagonal.Board.get 4 = "O" ∧
    ∃ s1 : GameState,
      MakeMove (engineOf beforeDiagonal) 6
        = some { app := { engineOf beforeDiagonal with gameState := some s1 },
                 state := some s1, err := none } ∧
      s1.GameOver = true ∧ s1.Winner = "O" ∧ s1.CurrentPlayer = "O" :=
  ⟨by decide, by decide, by decide, by decide,
    MakeMove_completes_triple (engineOf beforeDiagonal) beforeDiagonal "O" (2, 4, 6) 6
      (by decide) (Or.inr rfl) rfl rfl rfl (by decide) (by decide) (by decide) (by decide)
      (by decide)⟩

/-- C3: after a `MakeMove(i)` that returned no error from a state with `GameOver = false`,
`Winner = ""` and `CurrentPlayer` "X" or "O", the resulting `Winner` is "draw" exactly when every
cell is non-empty after the move and the mover holds none of the eight winning triples, and then
`GameOver = true`; a move that fills the board and completes a line for the mover leaves
`Winner` the mover, not "draw". The sequence X:0, O:1, X:2, X:3, O:4, X:5, O:6, X:7, O:8, the
mover assigned before each call, has all nine calls return no error and the last one return
`GameOver = true`, `Winner = "draw"` and a full board. -/
theorem MakeMove_draw_iff (a : App) (s : GameState) (i : Int) (r : MoveResult)
    (ha : a.gameState = some s) (hg : s.GameOver = false) (hw : s.Winner = "")
    (hp : s.CurrentPlayer = "X" ∨ s.CurrentPlayer = "O")
    (hm : MakeMove a i = some r) (hs : r.err = none) :
    (∃ s1 : GameState, r.state = some s1 ∧ r.app.gameState = some s1 ∧
      (s1.Winner = "draw" ↔ boardFull s1.Board ∧ ¬ hasLine s1.Board s.CurrentPlayer) ∧
      (s1.Winner = "draw" → s1.GameOver = true) ∧
      (boardFull s1.Board → hasLine s1.Board s.CurrentPlayer →
        s1.Winner = s.CurrentPlayer ∧ s1.Winner ≠ "draw")) ∧
    ((playAs (NewGame NewApp).1 drawMoves).map (fun rs => rs.map fun q => q.err)
        = some (List.replicate 9 none) ∧
      ((playAs (NewGame NewApp).1 drawMoves).bind fun rs => rs.getLast?.bind fun q => q.state)
        = some { Board := mkBoard "X" "O" "X" "X" "O" "X" "O" "X" "O", CurrentPlayer := "O",
                 Winner := "draw", GameOver := true } ∧
      boardFull (mkBoard "X" "O" "X" "X" "O" "X" "O" "X" "O")) := by
  constructor
  · obtain ⟨k, _, _, s1, hr, _, hcase⟩ := step_success_cases a s i r ha hg hm hs
    have hXd : s.CurrentPlayer ≠ "draw" := by
      rcases hp with h | h <;> rw [h] <;> decide
    refine ⟨s1, by rw [hr], by rw [hr], ?_, ?_, ?_⟩
    · rcases hcase with ⟨hl, _, hwin, _⟩ | ⟨hl, hf, _, hwin, _⟩ | ⟨hl, hf, _, hwin, _⟩
      · constructor
        · intro hd
          exact absurd (hwin.symm.trans hd) hXd
        · intro hh
          exact absurd hl hh.2
      · exact ⟨fun _ => ⟨hf, hl⟩, fun _ => hwin⟩
      · constructor
        · intro hd
          rw [hwin, hw] at hd
          exact absurd hd (by decide)
        · intro hh
          exact absurd hh.1 hf
    · rcases hcase with ⟨_, _, _, hgo⟩ | ⟨_, _, _, _, hgo⟩ | ⟨_, _, _, hwin, _⟩
      · exact fun _ => hgo
      · exact fun _ => hgo
      · intro hd
        rw [hwin, hw] at hd
        exact absurd hd (by decide)
    · intro hf hl
      rcases hcase with ⟨_, _, hwin, _⟩ | ⟨hnl, _⟩ | ⟨hnl, _⟩
      · exact ⟨hwin, by rw [hwin]; exact hXd⟩
      · exact absurd hl hnl
      · exact absurd hl hnl
  · exact ⟨by decide, by decide, by decide⟩

/-- Witness of C3: O fills the last empty cell of the board of the test, which is a draw. -/
theorem MakeMove_draw_iff_witness :
    MakeMove (engineOf beforeDraw) 8 = some (moved drawnState) ∧
    ∃ s1 : GameState, (moved drawnState).state = some s1 ∧
      (moved drawnState).app.gameState = some s1 ∧
      (s1.Winner = "draw" ↔ boardFull s1.Board ∧ ¬ hasLine s1.Board beforeDraw.CurrentPlayer) ∧
      (s1.Winner = "draw" → s1.GameOver = true) ∧
      (boardFull s1.Board → hasLine s1.Board beforeDraw.CurrentPlayer →
        s1.Winner = beforeDraw.CurrentPlayer ∧ s1.Winner ≠ "draw") :=
  ⟨by decide,
    (MakeMove_draw_iff (engineOf beforeDraw) beforeDraw 8 (moved drawnState) rfl rfl rfl
      (Or.inr rfl) (by decide) rfl).1⟩

/-- C4: after a `MakeMove(i)` that returned no error from a state with `GameOver = false` and
`CurrentPlayer` "X" or "O", if the mover holds no complete winning triple and some cell is still
empty, then `CurrentPlayer` is the other player, and `Winner` and `GameOver` are as before
(`GameOver` false). -/
theorem MakeMove_alternates (a : App) (s s1 : GameState) (i : Int) (r : MoveResult)
    (ha : a.gameState = some s) (hg : s.GameOver = false)
    (hp : s.CurrentPlayer = "X" ∨ s.CurrentPlayer = "O")
    (hm : MakeMove a i = some r) (hs : r.err = none)
    (h1 : r.app.gameState = some s1)
    (hnl : ¬ hasLine s1.Board s.CurrentPlayer) (hne : ∃ j : Fin 9, s1.Board.get j = "") :
    r.state = some s1 ∧
    (s.CurrentPlayer = "X" → s1.CurrentPlayer = "O") ∧
    (s.CurrentPlayer = "O" → s1.CurrentPlayer = "X") ∧
    s1.CurrentPlayer ≠ s.CurrentPlayer ∧
    s1.Winner = s.Winner ∧ s1.GameOver = s.GameOver ∧ s1.GameOver = false := by
  obtain ⟨k, _, _, s2, hr, _, hcase⟩ := step_success_cases a s i r ha hg hm hs
  have h12 : s2 = s1 := by
    rw [hr] at h1
    simpa using h1
  subst h12
  have hnf : ¬ boardFull s2.Board := by
    obtain ⟨j, hj⟩ := hne
    exact fun hf => hf j hj
  rcases hcase with ⟨hl, _⟩ | ⟨_, hf, _⟩ | ⟨_, _, hcp, hwin, hgo⟩
  · exact absurd hl hnl
  · exact absurd hf hnf
  · refine ⟨by rw [hr], ?_, ?_, ?_, hwin, by rw [hgo, hg], hgo⟩
    · intro hx
      rw [hcp, if_pos hx]
    · intro ho
      have hx : s.CurrentPlayer ≠ "X" := by rw [ho]; decide
      rw [hcp, if_neg hx]
    · rcases hp with hx | ho
      · rw [hcp, if_pos hx, hx]
        decide
      · have hx : s.CurrentPlayer ≠ "X" := by rw [ho]; decide
        rw [hcp, if_neg hx, ho]
        decide

/-- Witness of C4: X opens at cell 0 of a new game and the turn passes to O. -/
theorem MakeMove_alternates_witness :
    MakeMove (engineOf freshState) 0 = some (moved afterX0) ∧
    (moved afterX0).state = some afterX0 ∧
    (freshState.CurrentPlayer = "X" → afterX0.CurrentPlayer = "O") ∧
    (freshState.CurrentPlayer = "O" → afterX0.CurrentPlayer = "X") ∧
    afterX0.CurrentPlayer ≠ freshState.CurrentPlayer ∧
    afterX0.Winner = freshState.Winner ∧ afterX0.GameOver = freshState.GameOver ∧
    afterX0.GameOver = false :=
  ⟨by decide,
    MakeMove_alternates (engineOf freshState) freshState afterX0 0 (moved afterX0) rfl rfl
      (Or.inl rfl) (by decide) rfl rfl (by decide) ⟨1, by decide⟩⟩

/-- C5: in a state with `GameOver = true`, for every integer index (in range or not, empty cell
or occupied cell), `MakeMove(index)` fails with the game-over error, not with the invalid-index
or the cell-occupied error, and the engine after the call is the engine before it (`Board`,
`CurrentPlayer`, `Winner` and `GameOver` unchanged). -/
theorem MakeMove_game_over (a : App) (s : GameState) (index : Int)
    (ha : a.gameState = some s) (hg : s.GameOver = true) :
    ∃ r : MoveResult, MakeMove a index = some r ∧
      r.err = some "game is over" ∧
      r.err ≠ some "invalid move index" ∧ r.err ≠ some "cell already occupied" ∧
      r.app = a ∧ r.app.gameState = some s := by
  refine ⟨_, step_gameOver a s index ha hg, rfl, ?_, ?_, rfl, ha⟩
  · simp only [ne_eq, Option.some.injEq]
    decide
  · simp only [ne_eq, Option.some.injEq]
    decide

/-- Witness of C5: a move at the out-of-range index 42 on the drawn game. -/
theorem MakeMove_game_over_witness :
    drawnState.GameOver = true ∧
    ∃ r : MoveResult, MakeMove (engineOf drawnState) 42 = some r ∧
      r.err = some "game is over" ∧
      r.err ≠ some "invalid move index" ∧ r.err ≠ some "cell already occupied" ∧
      r.app = engineOf drawnState ∧ r.app.gameState = some drawnState :=
  ⟨rfl, MakeMove_game_over (engineOf drawnState) drawnState 42 rfl rfl⟩

/-- C6: in a state with `GameOver = false`, for every integer index `i` with `i < 0` or `i > 8`,
`MakeMove(i)` fails with the invalid-index error and the engine after the call is the engine
before it. -/
theorem MakeMove_invalid_index (a : App) (s : GameState) (i : Int)
    (ha : a.gameState = some s) (hg : s.GameOver = false) (hi : i < 0 ∨ i > 8) :
    ∃ r : MoveResult, MakeMove a i = some r ∧
      r.err = some "invalid move index" ∧ r.app = a ∧ r.app.gameState = some s :=
  ⟨_, step_invalid a s i ha hg hi, rfl, rfl, ha⟩

/-- Witness of C6: index 9 on a new game. -/
theorem MakeMove_invalid_index_witness :
    ((9 : Int) < 0 ∨ (9 : Int) > 8) ∧
    ∃ r : MoveResult, MakeMove (engineOf freshState) 9 = some r ∧
      r.err = some "invalid move index" ∧ r.app = engineOf freshState ∧
      r.app.gameState = some freshState :=
  ⟨by decide, MakeMove_invalid_index (engineOf freshState) freshState 9 rfl rfl (by decide)⟩

/-- C7: in a state with `GameOver = false`, for an index `i` in `[0, 8]` whose cell holds a
non-empty mark `c`, `MakeMove(i)` fails with the cell-occupied error and the engine after the
call is the engine before it: cell `i` still holds `c`, and `CurrentPlayer`, `Winner` and
`GameOver` are as before. After X moved to cell 0 of a new game, `MakeMove(0)` fails, cell 0
still holds "X" and `CurrentPlayer` is still "O". -/
theorem MakeMove_cell_occupied (a : App) (s : GameState) (i : Int) (c : String)
    (ha : a.gameState = some s) (hg : s.GameOver = false) (h0 : 0 ≤ i) (h8 : i ≤ 8)
    (hc : readCell s.Board i = some c) (hne : c ≠ "") :
    (∃ r : MoveResult, MakeMove a i = some r ∧
      r.err = some "cell already occupied" ∧ r.app = a ∧
      ∃ s1 : GameState, r.app.gameState = some s1 ∧ readCell s1.Board i = some c ∧
        s1.Board = s.Board ∧ s1.CurrentPlayer = s.CurrentPlayer ∧ s1.Winner = s.Winner ∧
        s1.GameOver = s.GameOver) ∧
    (playMoves (NewGame NewApp).1 [0, 0]).map (fun rs => rs.map fun q =>
        (q.err, q.app.gameState.map fun g => (readCell g.Board 0, g.CurrentPlayer)))
      = some [(none, some (some "X", "O")),
              (some "cell already occupied", some (some "X", "O"))] := by
  constructor
  · obtain ⟨k, rfl, hk⟩ := readCell_some s.Board i c hc
    have hk2 : s.Board.get k ≠ "" := by rw [hk]; exact hne
    exact ⟨_, step_occupied a s k ha hg hk2, rfl, rfl, s, ha, hc, rfl, rfl, rfl, rfl⟩
  · decide

/-- Witness of C7: O moves to cell 0, which X holds. -/
theorem MakeMove_cell_occupied_witness :
    readCell afterX0.Board 0 = some "X" ∧
    ∃ r : MoveResult, MakeMove (engineOf afterX0) 0 = some r ∧
      r.err = some "cell already occupied" ∧ r.app = engineOf afterX0 ∧
      ∃ s1 : GameState, r.app.gameState = some s1 ∧ readCell s1.Board 0 = some "X" ∧
        s1.Board = afterX0.Board ∧ s1.CurrentPlayer = afterX0.CurrentPlayer ∧
        s1.Winner = afterX0.Winner ∧ s1.GameOver = afterX0.GameOver :=
  ⟨by decide,
    (MakeMove_cell_occupied (engineOf afterX0) afterX0 0 "X" rfl rfl (by decide) (by decide)
      (by decide) (by decide)).1⟩

/-- C8: whatever the engine held before (nothing at all, a game in progress, a finished game,
arbitrary marks), `NewGame()` and `ResetGame()` each return the state of nine empty cells,
`CurrentPlayer = "X"`, `Winner = ""`, `GameOver = false`, and leave that state as the state of
the engine; `ResetGame()` is `NewGame()`, and a second call of either gives what the first
gave. -/
theorem NewGame_ResetGame_initial (a : App) :
    (NewGame a).2 = { Board := mkBoard "" "" "" "" "" "" "" "" "", CurrentPlayer := "X",
                      Winner := "", GameOver := false } ∧
    (NewGame a).1.gameState = some (NewGame a).2 ∧
    (NewGame a).1.ctx = a.ctx ∧
    (∀ j : Int, 0 ≤ j → j ≤ 8 → readCell (NewGame a).2.Board j = some "") ∧
    ResetGame a = NewGame a ∧
    NewGame (NewGame a).1 = NewGame a ∧
    ResetGame (ResetGame a).1 = ResetGame a ∧
    NewGame (ResetGame a).1 = NewGame a ∧
    ResetGame (NewGame a).1 = NewGame a ∧
    (NewGame NewApp).1.gameState
      = some { Board := mkBoard "" "" "" "" "" "" "" "" "", CurrentPlayer := "X", Winner := "",
               GameOver := false } := by
  refine ⟨rfl, rfl, rfl, ?_, rfl, rfl, rfl, rfl, rfl, rfl⟩
  intro j h0 h8
  obtain ⟨k, rfl⟩ := int_eq_fin j h0 h8
  rw [readCell_fin]
  show some ((Mathlib.Vector.replicate 9 "").get k) = some ""
  rw [Mathlib.Vector.get_replicate]

/-- C9 (evaluation of the code where it departs from the claim): on the inputs of the tests
the errors of `MakeMove` carry the messages "invalid move index" (index 9 and index -1 on a new
game), "cell already occupied" (cell 0 twice) and "game is over" (a state with
`GameOver = true`), none of which is the capitalised message the tests compare with. -/
theorem MakeMove_error_messages :
    (playMoves (NewGame NewApp).1 [9, -1]).map (fun rs => rs.map fun q => q.err)
      = some [some "invalid move index", some "invalid move index"] ∧
    (playMoves (NewGame NewApp).1 [0, 0]).map (fun rs => rs.map fun q => q.err)
      = some [none, some "cell already occupied"] ∧
    (MakeMove (engineOf { freshState with GameOver := true }) 0).map (fun q => q.err)
      = some (some "game is over") ∧
    "invalid move index" ≠ "Invalid move index" ∧
    "cell already occupied" ≠ "Cell already occupied" ∧
    "game is over" ≠ "Game is over" := by
  refine ⟨by decide, by decide, by decide, by decide, by decide, by decide⟩

/-- C10 (evaluation of the code where it departs from the claim): after X moved to cell 0 of a
new game, `MakeMove(0)` fails with the cell-occupied error and the state it returns next to the
error is the nil pointer, not the state the engine held before the call. -/
theorem MakeMove_occupied_returns_nil :
    (playMoves (NewGame NewApp).1 [0, 0]).map (fun rs => rs.map fun q => (q.err, q.state))
      = some [(none, some afterX0), (some "cell already occupied", none)] ∧
    ((playMoves (NewGame NewApp).1 [0, 0]).bind fun rs =>
        rs.getLast?.bind fun q => q.app.gameState) = some afterX0 := by
  refine ⟨by decide, by decide⟩

theorem reachable_afterX0 : Reachable (engineOf afterX0) :=
  Reachable.makeMove (NewGame NewApp).1 0 (moved afterX0) (Reachable.newGame NewApp)
    (by decide)

/-- C11: for every engine state and every integer index, `MakeMove(index)` returns, and whether
it succeeded or failed every cell that was non-empty before the call holds the same mark after
it. -/
theorem MakeMove_keeps_marks (a : App) (s : GameState) (index : Int)
    (ha : a.gameState = some s) :
    ∃ r : MoveResult, MakeMove a index = some r ∧
      ∃ s1 : GameState, r.app.gameState = some s1 ∧
        ∀ j : Fin 9, s.Board.get j ≠ "" → s1.Board.get j = s.Board.get j := by
  obtain ⟨r, hm⟩ := step_total a s index ha
  refine ⟨r, hm, ?_⟩
  by_cases hs : r.err = none
  · have hg := step_success_inProgress a s index r ha hm hs
    obtain ⟨i, _, he, s1, hr, hb, _⟩ := step_success_cases a s index r ha hg hm hs
    refine ⟨s1, by rw [hr], ?_⟩
    intro j hj
    have hij : i ≠ j := by
      intro h
      rw [h] at he
      exact hj he
    rw [hb, Mathlib.Vector.get_set_of_ne hij]
  · obtain ⟨h1, _⟩ := step_failure a s index r ha hm hs
    exact ⟨s, by rw [h1, ha], fun _ _ => rfl⟩

/-- Witness of C11: O moves to cell 4 of a board holding an X at cell 0. -/
theorem MakeMove_keeps_marks_witness :
    ∃ r : MoveResult, MakeMove (engineOf afterX0) 4 = some r ∧
      ∃ s1 : GameState, r.app.gameState = some s1 ∧
        ∀ j : Fin 9, afterX0.Board.get j ≠ "" → s1.Board.get j = afterX0.Board.get j :=
  MakeMove_keeps_marks (engineOf afterX0) afterX0 4 rfl

/-- C12: the state of every engine reachable from `NewGame()` by `MakeMove` calls is present,
every cell of it is "", "X" or "O", `CurrentPlayer` is "X" or "O", `Winner` is "", "X", "O" or
"draw", and `Winner = ""` exactly when `GameOver = false`. -/
theorem reachable_wellformed (a : App) (hr : Reachable a) :
    ∃ s : GameState, a.gameState = some s ∧
      (∀ j : Fin 9, s.Board.get j = "" ∨ s.Board.get j = "X" ∨ s.Board.get j = "O") ∧
      (s.CurrentPlayer = "X" ∨ s.CurrentPlayer = "O") ∧
      (s.Winner = "" ∨ s.Winner = "X" ∨ s.Winner = "O" ∨ s.Winner = "draw") ∧
      (s.Winner = "" ↔ s.GameOver = false) := by
  obtain ⟨s, ha, halpha, hcp, _, _, hprog, hover⟩ := reachable_consistent a hr
  refine ⟨s, ha, halpha, hcp, ?_, ?_⟩
  · cases hg : s.GameOver with
    | false => exact Or.inl (hprog hg).1
    | true =>
      rcases hover hg with h | h | h
      · exact Or.inr (Or.inl h.1)
      · exact Or.inr (Or.inr (Or.inl h.1))
      · exact Or.inr (Or.inr (Or.inr h.1))
  · constructor
    · intro hw
      cases hg : s.GameOver with
      | false => rfl
      | true =>
        rcases hover hg with h | h | h <;> rw [h.1] at hw <;> exact absurd hw (by decide)
    · intro hg
      exact (hprog hg).1

/-- Witness of C12: the engine after X opened at cell 0 of a new game. -/
theorem reachable_wellformed_witness :
    Reachable (engineOf afterX0) ∧
    ∃ s : GameState, (engineOf afterX0).gameState = some s ∧
      (∀ j : Fin 9, s.Board.get j = "" ∨ s.Board.get j = "X" ∨ s.Board.get j = "O") ∧
      (s.CurrentPlayer = "X" ∨ s.CurrentPlayer = "O") ∧
      (s.Winner = "" ∨ s.Winner = "X" ∨ s.Winner = "O" ∨ s.Winner = "draw") ∧
      (s.Winner = "" ↔ s.GameOver = false) :=
  ⟨reachable_afterX0, reachable_wellformed (engineOf afterX0) reachable_afterX0⟩

/-- C13: in the state of every engine reachable from `NewGame()` by `MakeMove` calls the
recorded outcome agrees with the board: if `GameOver = false` neither X nor O holds a winning
triple; if `Winner = p` for `p` "X" or "O" then `p` holds a winning triple and the opponent holds
none; if `Winner = "draw"` all nine cells are non-empty and neither player holds a winning
triple. -/
theorem reachable_outcome (a : App) (hr : Reachable a) :
    ∃ s : GameState, a.gameState = some s ∧
      (s.GameOver = false → ¬ hasLine s.Board "X" ∧ ¬ hasLine s.Board "O") ∧
      (s.Winner = "X" → hasLine s.Board "X" ∧ ¬ hasLine s.Board "O") ∧
      (s.Winner = "O" → hasLine s.Board "O" ∧ ¬ hasLine s.Board "X") ∧
      (s.Winner = "draw" →
        boardFull s.Board ∧ ¬ hasLine s.Board "X" ∧ ¬ hasLine s.Board "O") := by
  obtain ⟨s, ha, _, _, _, _, hprog, hover⟩ := reachable_consistent a hr
  have key : ∀ w : String, w ≠ "" → s.Winner = w →
      (s.Winner = "X" ∧ hasLine s.Board "X" ∧ ¬ hasLine s.Board "O") ∨
      (s.Winner = "O" ∧ hasLine s.Board "O" ∧ ¬ hasLine s.Board "X") ∨
      (s.Winner = "draw" ∧ boardFull s.Board ∧ ¬ hasLine s.Board "X" ∧
        ¬ hasLine s.Board "O") := by
    intro w hw hsw
    cases hg : s.GameOver with
    | false =>
      rw [(hprog hg).1] at hsw
      exact absurd hsw.symm hw
    | true => exact hover hg
  refine ⟨s, ha, fun hg => ⟨(hprog hg).2.1, (hprog hg).2.2.1⟩, ?_, ?_, ?_⟩
  · intro hw
    rcases key "X" (by decide) hw with h | h | h
    · exact h.2
    · rw [hw] at h; exact absurd h.1 (by decide)
    · rw [hw] at h; exact absurd h.1 (by decide)
  · intro hw
    rcases key "O" (by decide) hw with h | h | h
    · rw [hw] at h; exact absurd h.1 (by decide)
    · exact h.2
    · rw [hw] at h; exact absurd h.1 (by decide)
  · intro hw
    rcases key "draw" (by decide) hw with h | h | h
    · rw [hw] at h; exact absurd h.1 (by decide)
    · rw [hw] at h; exact absurd h.1 (by decide)
    · exact h.2

/-- Witness of C13: the engine after X opened at cell 0 of a new game. -/
theorem reachable_outcome_witness :
    Reachable (engineOf afterX0) ∧
    ∃ s : GameState, (engineOf afterX0).gameState = some s ∧
      (s.GameOver = false → ¬ hasLine s.Board "X" ∧ ¬ hasLine s.Board "O") ∧
      (s.Winner = "X" → hasLine s.Board "X" ∧ ¬ hasLine s.Board "O") ∧
      (s.Winner = "O" → hasLine s.Board "O" ∧ ¬ hasLine s.Board "X") ∧
      (s.Winner = "draw" →
        boardFull s.Board ∧ ¬ hasLine s.Board "X" ∧ ¬ hasLine s.Board "O") :=
  ⟨reachable_afterX0, reachable_outcome (engineOf afterX0) reachable_afterX0⟩

/-- C14: in the state of every engine reachable from `NewGame()` by `MakeMove` calls the number
of X cells equals the number of O cells or exceeds it by exactly one, the non-empty cells are
the X and the O cells, and while `GameOver = false`, `CurrentPlayer = "X"` exactly when the two
counts are equal (an even number of cells occupied) and `CurrentPlayer = "O"` exactly when X has
one more. -/
theorem reachable_turns (a : App) (hr : Reachable a) :
    ∃ s : GameState, a.gameState = some s ∧
      (marks s.Board "X" = marks s.Board "O" ∨ marks s.Board "X" = marks s.Board "O" + 1) ∧
      occupied s.Board = marks s.Board "X" + marks s.Board "O" ∧
      (s.GameOver = false →
        (s.CurrentPlayer = "X" ↔ marks s.Board "X" = marks s.Board "O") ∧
        (s.CurrentPlayer = "X" ↔ occupied s.Board % 2 = 0) ∧
        (s.CurrentPlayer = "O" ↔ marks s.Board "X" = marks s.Board "O" + 1)) := by
  obtain ⟨s, ha, _, hcp, hcnt, hocc, hprog, _⟩ := reachable_consistent a hr
  refine ⟨s, ha, hcnt, hocc, ?_⟩
  intro hg
  have hturn := (hprog hg).2.2.2.2
  have hXO : ("X" : String) ≠ "O" := by decide
  refine ⟨hturn, ?_, ?_⟩
  · constructor
    · intro hx
      have := hturn.mp hx
      omega
    · intro he
      apply hturn.mpr
      omega
  · constructor
    · intro ho
      have hnx : ¬ s.CurrentPlayer = "X" := by rw [ho]; exact Ne.symm hXO
      have hne : marks s.Board "X" ≠ marks s.Board "O" := fun h => hnx (hturn.mpr h)
      omega
    · intro h1
      rcases hcp with hx | ho
      · have := hturn.mp hx
        omega
      · exact ho

/-- Witness of C14: the engine after X opened at cell 0 of a new game. -/
theorem reachable_turns_witness :
    Reachable (engineOf afterX0) ∧
    ∃ s : GameState, (engineOf afterX0).gameState = some s ∧
      (marks s.Board "X" = marks s.Board "O" ∨ marks s.Board "X" = marks s.Board "O" + 1) ∧
      occupied s.Board = marks s.Board "X" + marks s.Board "O" ∧
      (s.GameOver = false →
        (s.CurrentPlayer = "X" ↔ marks s.Board "X" = marks s.Board "O") ∧
        (s.CurrentPlayer = "X" ↔ occupied s.Board % 2 = 0) ∧
        (s.CurrentPlayer = "O" ↔ marks s.Board "X" = marks s.Board "O" + 1)) :=
  ⟨reachable_afterX0, reachable_turns (engineOf afterX0) reachable_afterX0⟩

/-- C15: `GetInitialState()` returns the state the engine holds and leaves the engine as it
was; right after a `MakeMove` that returned no error, a `NewGame` or a `ResetGame`, it returns
the state that operation returned. -/
theorem GetInitialState_live (a : App) (index : Int) (r : MoveResult)
    (hm : MakeMove a index = some r) (hs : r.err = none) :
    (∃ s1 : GameState, r.state = some s1 ∧ (GetInitialState r.app).2 = some s1) ∧
    (GetInitialState r.app).1 = r.app ∧
    (∀ b : App, (GetInitialState b).1 = b ∧ (GetInitialState b).2 = b.gameState) ∧
    (∀ b : App, (GetInitialState (NewGame b).1).2 = some (NewGame b).2 ∧
      (GetInitialState (ResetGame b).1).2 = some (ResetGame b).2) := by
  obtain ⟨s, ha⟩ := step_state a index r hm
  have hg := step_success_inProgress a s index r ha hm hs
  obtain ⟨_, _, _, s1, hr, _, _⟩ := step_success_cases a s index r ha hg hm hs
  refine ⟨⟨s1, by rw [hr], by rw [hr]; rfl⟩, rfl, fun b => ⟨rfl, rfl⟩, fun b => ⟨rfl, rfl⟩⟩

/-- Witness of C15: `GetInitialState` after X opened at cell 0 of a new game. -/
theorem GetInitialState_live_witness :
    MakeMove (engineOf freshState) 0 = some (moved afterX0) ∧
    (∃ s1 : GameState, (moved afterX0).state = some s1 ∧
      (GetInitialState (moved afterX0).app).2 = some s1) ∧
    (GetInitialState (moved afterX0).app).1 = (moved afterX0).app :=
  ⟨by decide,
    (GetInitialState_live (engineOf freshState) 0 (moved afterX0) (by decide) rfl).1,
    (GetInitialState_live (engineOf freshState) 0 (moved afterX0) (by decide) rfl).2.1⟩

/-- C16 (evaluation of the code where it departs from the claim): on an engine that was
started, `GetInitialState()` returns the state of startup, but after `MakeMove(0)` it returns
the state with X at cell 0 and O to move, which is not the state of startup. -/
theorem GetInitialState_after_move :
    (GetInitialState (startup NewApp { id := 0 })).2 = some freshState ∧
    (MakeMove (startup NewApp { id := 0 }) 0).map (fun q => (q.err, (GetInitialState q.app).2))
      = some (none, some afterX0) ∧
    afterX0 ≠ freshState := by
  refine ⟨by decide, by decide, by decide⟩

/-- C17: for every board and every string `player` (the empty string included), `checkWin`
returns, and returns true exactly when one of the eight triples 0-1-2, 3-4-5, 6-7-8, 0-3-6,
1-4-7, 2-5-8, 0-4-8, 2-4-6 has its three cells equal to `player`; `checkDraw` returns true
exactly when no cell is the empty string. -/
theorem checkWin_checkDraw_spec (board : BoardArray) (player : String) :
    (∃ b : Bool, checkWin board player = some b) ∧
    (checkWin board player = some true ↔
      ∃ t ∈ winningTriples,
        board.get t.1 = player ∧ board.get t.2.1 = player ∧ board.get t.2.2 = player) ∧
    (checkWin board player = some false ↔
      ¬ ∃ t ∈ winningTriples,
        board.get t.1 = player ∧ board.get t.2.1 = player ∧ board.get t.2.2 = player) ∧
    winningTriples
      = [(0, 1, 2), (3, 4, 5), (6, 7, 8), (0, 3, 6), (1, 4, 7), (2, 5, 8), (0, 4, 8),
          (2, 4, 6)] ∧
    (checkDraw board = true ↔ ∀ j : Fin 9, board.get j ≠ "") := by
  have hw := checkWin_eq board player
  have hd := checkDraw_eq board
  refine ⟨⟨_, hw⟩, ?_, ?_, rfl, ?_⟩
  · rw [hw]
    simp only [Option.some.injEq, decide_eq_true_eq]
    rfl
  · rw [hw]
    simp only [Option.some.injEq, decide_eq_false_iff_not]
    rfl
  · rw [hd]
    simp only [decide_eq_true_eq]
    rfl

/-- C18: in a state with `GameOver = false`, for an index `i` in `[0, 8]` whose cell is empty,
`MakeMove(i)` writes `CurrentPlayer` at cell `i` and does exactly one of two things: it changes
`CurrentPlayer` and leaves `GameOver = false`, or it sets `GameOver = true` and leaves
`CurrentPlayer` unchanged. -/
theorem MakeMove_turn_or_end (a : App) (s : GameState) (i : Int)
    (ha : a.gameState = some s) (hg : s.GameOver = false) (h0 : 0 ≤ i) (h8 : i ≤ 8)
    (he : readCell s.Board i = some "") :
    ∃ s1 : GameState,
      MakeMove a i
        = some { app := { a with gameState := some s1 }, state := some s1, err := none } ∧
      readCell s1.Board i = some s.CurrentPlayer ∧
      ((s1.CurrentPlayer ≠ s.CurrentPlayer ∧ s1.GameOver = false) ∨
        (s1.GameOver = true ∧ s1.CurrentPlayer = s.CurrentPlayer)) ∧
      ¬ ((s1.CurrentPlayer ≠ s.CurrentPlayer ∧ s1.GameOver = false) ∧
        (s1.GameOver = true ∧ s1.CurrentPlayer = s.CurrentPlayer)) := by
  obtain ⟨k, rfl, hk⟩ := readCell_some s.Board _ "" he
  obtain ⟨s1, hm, hb⟩ := step_empty_cell a s k ha hg hk
  obtain ⟨_, _, _, s2, hr, _, hcase⟩ := step_success_cases a s _ _ ha hg hm rfl
  have h12 : s2 = s1 := by
    have := congrArg MoveResult.state hr
    simpa using this.symm
  subst h12
  refine ⟨s2, hm, by rw [hb, readCell_fin, Mathlib.Vector.get_set_same], ?_, ?_⟩
  · rcases hcase with ⟨_, h1, _, h3⟩ | ⟨_, _, h1, _, h3⟩ | ⟨_, _, h1, _, h3⟩
    · exact Or.inr ⟨h3, h1⟩
    · exact Or.inr ⟨h3, h1⟩
    · refine Or.inl ⟨?_, h3⟩
      rw [h1]
      by_cases hx : s.CurrentPlayer = "X"
      · rw [if_pos hx, hx]
        decide
      · rw [if_neg hx]
        exact Ne.symm hx
  · rintro ⟨⟨h1, _⟩, ⟨_, h2⟩⟩
    exact h1 h2

/-- Witness of C18: X opens at cell 0 of a new game. -/
theorem MakeMove_turn_or_end_witness :
    readCell freshState.Board 0 = some "" ∧
    ∃ s1 : GameState,
      MakeMove (engineOf freshState) 0
        = some { app := { engineOf freshState with gameState := some s1 }, state := some s1,
                 err := none } ∧
      readCell s1.Board 0 = some freshState.CurrentPlayer ∧
      ((s1.CurrentPlayer ≠ freshState.CurrentPlayer ∧ s1.GameOver = false) ∨
        (s1.GameOver = true ∧ s1.CurrentPlayer = freshState.CurrentPlayer)) ∧
      ¬ ((s1.CurrentPlayer ≠ freshState.CurrentPlayer ∧ s1.GameOver = false) ∧
        (s1.GameOver = true ∧ s1.CurrentPlayer = freshState.CurrentPlayer)) :=
  ⟨by decide,
    MakeMove_turn_or_end (engineOf freshState) freshState 0 rfl rfl (by decide) (by decide)
      (by decide)⟩

/-- From a consistent state every sequence of `MakeMove` calls runs to its end, and the cells
occupied at the start plus the calls that succeed are at most nine. -/
theorem playMoves_bound (moves : List Int) :
    ∀ (a : App) (s : GameState), a.gameState = some s → Consistent s →
      ∃ rs : List MoveResult, playMoves a moves = some rs ∧ rs.length = moves.length ∧
        occupied s.Board + successes rs ≤ 9 := by
  induction moves with
  | nil =>
    intro a s _ _
    exact ⟨[], rfl, rfl, by simpa [successes] using occupied_le s.Board⟩
  | cons index rest ih =>
    intro a s ha hc
    obtain ⟨r, hm⟩ := step_total a s index ha
    by_cases hs : r.err = none
    · obtain ⟨s1, h1, _, hc1, hocc⟩ := consistent_success a s index r ha hc hm hs
      obtain ⟨rs, hrs, hlen, hle⟩ := ih r.app s1 h1 hc1
      refine ⟨r :: rs, by simp [playMoves, hm, hrs], by simp [hlen], ?_⟩
      have hcount : successes (r :: rs) = successes rs + 1 := by
        simp [successes, List.countP_cons, hs]
      omega
    · obtain ⟨h1, _⟩ := step_failure a s index r ha hm hs
      obtain ⟨rs, hrs, hlen, hle⟩ := ih r.app s (by rw [h1, ha]) hc
      refine ⟨r :: rs, by simp [playMoves, hm, hrs], by simp [hlen], ?_⟩
      have hcount : successes (r :: rs) = successes rs := by
        have hs2 : r.err.isNone = false := by
          cases he : r.err with
          | none => exact absurd he hs
          | some _ => rfl
        simp [successes, List.countP_cons, hs2]
      omega

/-- C19: on every engine whose state is initialised and for every integer index, `MakeMove`
returns without an out-of-bounds access: it returns a result (a read or write of the board
outside `[0, 8]` would be a panic), for an index outside `[0, 8]` that result is an error and
the engine is untouched; `checkWin` returns for every board, every index expression it uses
lies in `[0, 8]`, and `checkDraw` ranges over the nine cells of the array. -/
theorem MakeMove_in_bounds (a : App) (s : GameState) (index : Int)
    (ha : a.gameState = some s) :
    (∃ r : MoveResult, MakeMove a index = some r ∧
      ((index < 0 ∨ 8 < index) → r.err ≠ none ∧ r.state = none ∧ r.app = a)) ∧
    (∀ (board : BoardArray) (j : Int), readCell board j = none ↔ (j < 0 ∨ 8 < j)) ∧
    (∀ (board : BoardArray) (j : Int) (v : String),
      writeCell board j v = none ↔ (j < 0 ∨ 8 < j)) ∧
    (∀ (board : BoardArray) (player : String), ∃ b : Bool, checkWin board player = some b) ∧
    (∀ j ∈ checkWinIndices, 0 ≤ j ∧ j ≤ 8) ∧
    (∀ board : BoardArray, board.toList.length = 9) := by
  refine ⟨?_, ?_, ?_, fun board player => ⟨_, checkWin_eq board player⟩, by decide,
    fun board => board.toList_length⟩
  · obtain ⟨r, hm⟩ := step_total a s index ha
    refine ⟨r, hm, fun hi => ?_⟩
    by_cases hg : s.GameOver = true
    · rw [step_gameOver a s index ha hg] at hm
      cases hm
      exact ⟨by simp, rfl, rfl⟩
    · rw [step_invalid a s index ha (by simpa using hg) hi] at hm
      cases hm
      exact ⟨by simp, rfl, rfl⟩
  · intro board j
    unfold readCell
    split
    · rename_i h
      simp only [reduceCtorEq, false_iff]
      omega
    · rename_i h
      simp only [true_iff]
      omega
  · intro board j v
    unfold writeCell
    split
    · rename_i h
      simp only [reduceCtorEq, false_iff]
      omega
    · rename_i h
      simp only [true_iff]
      omega

/-- Witness of C19: index 100 on a new game. -/
theorem MakeMove_in_bounds_witness :
    ∃ r : MoveResult, MakeMove (engineOf freshState) 100 = some r ∧
      (((100 : Int) < 0 ∨ (8 : Int) < 100) →
        r.err ≠ none ∧ r.state = none ∧ r.app = engineOf freshState) :=
  (MakeMove_in_bounds (engineOf freshState) freshState 100 rfl).1

/-- C20: a `MakeMove` call that returns no error on a reachable engine leaves exactly one more
non-empty cell; in every sequence of `MakeMove` calls after `NewGame()` every call returns and
at most nine return no error; every reachable state with nine non-empty cells has
`GameOver = true`; and the nine moves 0, 1, 2, 4, 3, 5, 7, 6, 8 from a new game all return no
error and end with `Winner = "draw"`. -/
theorem MakeMove_at_most_nine (a : App) (s s1 : GameState) (index : Int) (r : MoveResult)
    (hr : Reachable a) (ha : a.gameState = some s)
    (hm : MakeMove a index = some r) (hs : r.err = none) (h1 : r.app.gameState = some s1) :
    occupied s1.Board = occupied s.Board + 1 ∧
    (∀ (a0 : App) (moves : List Int), ∃ rs : List MoveResult,
      playMoves (NewGame a0).1 moves = some rs ∧ rs.length = moves.length ∧
        successes rs ≤ 9) ∧
    (∀ (b : App) (t : GameState), Reachable b → b.gameState = some t →
      boardFull t.Board → t.GameOver = true) ∧
    (playMoves (NewGame NewApp).1 nineMoves).map (fun rs => rs.map fun q => q.err)
      = some (List.replicate 9 none) ∧
    (playMoves (NewGame NewApp).1 nineMoves).map successes = some 9 ∧
    ((playMoves (NewGame NewApp).1 nineMoves).bind fun rs => rs.getLast?.bind fun q => q.state)
      = some nineMovesState ∧
    nineMovesState.Winner = "draw" ∧ boardFull nineMovesState.Board := by
  refine ⟨?_, ?_, ?_, by decide, by decide, by decide, rfl, by decide⟩
  · obtain ⟨s0, ha0, hc⟩ := reachable_consistent a hr
    have hs0 : s0 = s := by
      rw [ha] at ha0
      simpa using ha0.symm
    subst hs0
    obtain ⟨s2, h2, _, _, hocc⟩ := consistent_success a s0 index r ha hc hm hs
    have h12 : s2 = s1 := by
      rw [h1] at h2
      simpa using h2.symm
    subst h12
    exact hocc
  · intro a0 moves
    obtain ⟨rs, hrs, hlen, hle⟩ :=
      playMoves_bound moves (NewGame a0).1 (NewGame a0).2 rfl (consistent_fresh a0)
    exact ⟨rs, hrs, hlen, by omega⟩
  · intro b t hb hbt hfull
    obtain ⟨t0, hb0, hc⟩ := reachable_consistent b hb
    have ht : t0 = t := by
      rw [hbt] at hb0
      simpa using hb0.symm
    subst ht
    cases hg : t0.GameOver with
    | true => rfl
    | false => exact absurd hfull (hc.2.2.2.2.1 hg).2.2.2.1

/-- Witness of C20: X opens at cell 0 of a new game, which fills one cell. -/
theorem MakeMove_at_most_nine_witness :
    Reachable (NewGame NewApp).1 ∧
    MakeMove (NewGame NewApp).1 0 = some (moved afterX0) ∧
    occupied afterX0.Board = occupied freshState.Board + 1 :=
  ⟨Reachable.newGame NewApp, by decide,
    (MakeMove_at_most_nine (NewGame NewApp).1 freshState afterX0 0 (moved afterX0)
      (Reachable.newGame NewApp) rfl (by decide) rfl rfl).1⟩

end TicTacToe
